import Mathlib

/-!
Verification model of the Umbra incremental change-impact pipeline.

Shallow embedding of the core of the `rida12b/Umbra` repository:
the dependency graph and change tracker (`src/umbra/agents/tracker.py`),
the Mermaid validator (`src/umbra/validators/mermaid.py`), the LangGraph
orchestrator retry machine (`src/umbra/agents/orchestrator.py`) and the
debounced file watcher (`src/umbra/watcher/file_watcher.py`).

Python dictionaries are modelled as association lists with unique keys
(insertion order preserved, as in CPython), Python sets as duplicate-free
lists.  Calls into external libraries (the `ast` parser, the LLM client)
are abstracted as oracle parameters; everything else is translated
directly from the source.
-/

/-- Python `dict` lookup: `d.get(k)`. -/
def dictGet {β : Type} (d : List (String × β)) (k : String) : Option β :=
  (d.find? (fun kv => kv.1 == k)).map (fun kv => kv.2)

/-- Python `dict` assignment `d[k] = v`: replaces in place, else appends. -/
def dictSet {β : Type} (d : List (String × β)) (k : String) (v : β) :
    List (String × β) :=
  if d.any (fun kv => kv.1 == k) then
    d.map (fun kv => if kv.1 == k then (k, v) else kv)
  else
    d ++ [(k, v)]

/-- Python `del d[k]` (also a no-op when the key is absent, as used after
an `if k in d` guard). -/
def dictDel {β : Type} (d : List (String × β)) (k : String) :
    List (String × β) :=
  d.filter (fun kv => !(kv.1 == k))

/-- Python `set.add`: sets are modelled as duplicate-free lists. -/
def pySetAdd (s : List String) (x : String) : List String :=
  if x ∈ s then s else s ++ [x]

/-- Python `set.discard`. -/
def pySetDiscard (s : List String) (x : String) : List String :=
  s.filter (fun y => !(y == x))

/-- All strings appearing in the value sets of an association map
(used as the finite universe for the worklist termination measure). -/
def valuesList (d : List (String × List String)) : List String :=
  d.foldr (fun kv acc => kv.2 ++ acc) []

/-- Model of `DependencyGraph` from `tracker.py`: `imports` maps a file to the
modules it imports, `imported_by` maps a module to the files importing
it. -/
structure DependencyGraph where
  imports : List (String × List String)
  imported_by : List (String × List String)
deriving DecidableEq, Repr

/-- The empty graph (`DependencyGraph.__init__`). -/
def DependencyGraph.empty : DependencyGraph := ⟨[], []⟩

/-- Model of `DependencyGraph.add_file`, with `_extract_imports` (which calls the
external `ast` parser) abstracted as the oracle `extract`:
store the extracted imports as the file's forward entry and add the file
to the reverse entry of each imported module.  Note the source never
removes the file from reverse entries of modules it no longer imports. -/
def DependencyGraph.add_file (extract : String → String → List String)
    (g : DependencyGraph) (file_path content : String) : DependencyGraph :=
  let imports := extract content file_path
  let forward := dictSet g.imports file_path imports
  let reverse := imports.foldl
    (fun d imported => dictSet d imported (pySetAdd ((dictGet d imported).getD []) file_path))
    g.imported_by
  ⟨forward, reverse⟩

/-- Model of `DependencyGraph.remove_file`: delete the forward entry, discard the
file from every reverse set, then delete the file's own reverse entry. -/
def DependencyGraph.remove_file (g : DependencyGraph) (file_path : String) :
    DependencyGraph :=
  let forward := dictDel g.imports file_path
  let reverse := (g.imported_by.map (fun kv => (kv.1, pySetDiscard kv.2 file_path)))
  ⟨forward, dictDel reverse file_path⟩

/-- The inner `for dep in direct_dependents` loop of
`DependencyGraph.get_dependents`: each dependent not yet seen is added to
the seen set and appended to the worklist. -/
def processDeps (deps tc : List String) : List String → List String × List String
  | [] => (deps, tc)
  | d :: ds =>
    if d ∈ deps then processDeps deps tc ds
    else processDeps (deps ++ [d]) (tc ++ [d]) ds

/-- The `while to_check` loop of `DependencyGraph.get_dependents`:
pop the last worklist entry, look up its direct dependents, enqueue the
unseen ones.  Terminates because each iteration either discovers a new
node of the (finite) reverse-value universe or shortens the worklist. -/
def get_dependents_loop (ib : List (String × List String))
    (deps tc : List String) : List String :=
  if h : tc = [] then deps
  else
    let current := tc.getLast h
    let rest := tc.dropLast
    let direct := (dictGet ib current).getD []
    let next := processDeps deps rest direct
    get_dependents_loop ib next.1 next.2
termination_by ((((valuesList ib).dedup).filter (fun u => decide (¬ u ∈ deps))).length, tc.length)
decreasing_by
  have hmem : ∀ (ds deps tc : List String) (x : String),
      x ∈ deps ∨ x ∈ ds → x ∈ (processDeps deps tc ds).1 := by
    intro ds
    induction ds with
    | nil => intro deps tc x hx; simpa [processDeps] using hx.resolve_right (by simp)
    | cons d ds ih =>
      intro deps tc x hx
      by_cases hd : d ∈ deps
      · simp only [processDeps, if_pos hd]
        refine ih deps tc x ?_
        rcases hx with hx | hx
        · exact Or.inl hx
        · rcases List.mem_cons.mp hx with rfl | hx
          · exact Or.inl hd
          · exact Or.inr hx
      · simp only [processDeps, if_neg hd]
        refine ih (deps ++ [d]) (tc ++ [d]) x ?_
        rcases hx with hx | hx
        · exact Or.inl (List.mem_append_left _ hx)
        · rcases List.mem_cons.mp hx with rfl | hx
          · exact Or.inl (by simp)
          · exact Or.inr hx
  have hfix : ∀ (ds deps tc : List String),
      (∀ d ∈ ds, d ∈ deps) → processDeps deps tc ds = (deps, tc) := by
    intro ds
    induction ds with
    | nil => intro deps tc _; rfl
    | cons d ds ih =>
      intro deps tc hall
      have hd : d ∈ deps := hall d (by simp)
      simp only [processDeps, if_pos hd]
      exact ih deps tc (fun x hx => hall x (by simp [hx]))
  have hfilter_le : ∀ (U : List String) (p q : String → Bool),
      (∀ x, q x = true → p x = true) →
      (U.filter q).length ≤ (U.filter p).length := by
    intro U p q hpq
    induction U with
    | nil => simp
    | cons u U ih =>
      rw [List.filter_cons, List.filter_cons]
      by_cases hq : q u = true
      · rw [if_pos hq, if_pos (hpq u hq)]
        exact Nat.succ_le_succ ih
      · rw [if_neg (by simp [hq])]
        by_cases hp : p u = true
        · rw [if_pos hp]
          exact Nat.le_succ_of_le ih
        · rw [if_neg (by simp [hp])]
          exact ih
  have hfilter_lt : ∀ (U : List String) (p q : String → Bool),
      (∀ x, q x = true → p x = true) →
      ∀ d0, d0 ∈ U → p d0 = true → q d0 = false →
      (U.filter q).length < (U.filter p).length := by
    intro U p q hpq
    induction U with
    | nil => intro d0 hmem0; simp at hmem0
    | cons u U ih =>
      intro d0 hd0 hp0 hq0
      rw [List.filter_cons, List.filter_cons]
      rcases List.mem_cons.mp hd0 with rfl | hd0
      · rw [if_neg (by simp [hq0]), if_pos hp0]
        exact Nat.lt_succ_of_le (hfilter_le U p q hpq)
      · by_cases hq : q u = true
        · rw [if_pos hq, if_pos (hpq u hq)]
          exact Nat.succ_lt_succ (ih d0 hd0 hp0 hq0)
        · rw [if_neg (by simp [hq])]
          by_cases hp : p u = true
          · rw [if_pos hp]
            exact Nat.lt_succ_of_lt (ih d0 hd0 hp0 hq0)
          · rw [if_neg (by simp [hp])]
            exact ih d0 hd0 hp0 hq0
  have hvalues : ∀ (w : List (String × List String)) (kv : String × List String),
      kv ∈ w → ∀ x ∈ kv.2, x ∈ valuesList w := by
    intro w
    induction w with
    | nil => intro kv hkv; simp at hkv
    | cons e w ih =>
      intro kv hkv x hx
      rcases List.mem_cons.mp hkv with rfl | hkv
      · simpa [valuesList] using Or.inl hx
      · have := ih kv hkv x hx
        simp only [valuesList, List.foldr_cons] at this ⊢
        exact List.mem_append_right _ this
  by_cases hnew : ∀ d ∈ (dictGet ib (tc.getLast h)).getD [], d ∈ deps
  · rw [hfix _ _ _ hnew]
    have hlen : tc.dropLast.length < tc.length := by
      have hpos : 0 < tc.length := List.length_pos.mpr h
      simp only [List.length_dropLast]
      omega
    exact Prod.Lex.right _ hlen
  · push_neg at hnew
    obtain ⟨d0, hd0mem, hd0notin⟩ := hnew
    apply Prod.Lex.left
    have hd0in : d0 ∈ (processDeps deps tc.dropLast ((dictGet ib (tc.getLast h)).getD [])).1 :=
      hmem _ _ _ _ (Or.inr hd0mem)
    have hd0U : d0 ∈ (valuesList ib).dedup := by
      rw [List.mem_dedup]
      cases hv : dictGet ib (tc.getLast h) with
      | none => rw [hv] at hd0mem; simp at hd0mem
      | some v =>
        rw [hv] at hd0mem
        simp only [Option.getD_some] at hd0mem
        have hkv : ∃ kv, kv ∈ ib ∧ kv.2 = v := by
          cases hfind : ib.find? (fun kv => kv.1 == tc.getLast h) with
          | none => simp [dictGet, hfind] at hv
          | some kv =>
            refine ⟨kv, List.mem_of_find?_eq_some hfind, ?_⟩
            simp only [dictGet, hfind, Option.map_some] at hv
            exact Option.some.inj hv
        obtain ⟨kv, hkvmem, hkv2⟩ := hkv
        exact hvalues ib kv hkvmem d0 (by rw [hkv2]; exact hd0mem)
    refine hfilter_lt _ _ _ ?_ d0 hd0U ?_ ?_
    · intro x hx
      simp only [decide_eq_true_eq] at hx ⊢
      intro hxdeps
      exact hx (hmem _ _ _ _ (Or.inl hxdeps))
    · simp only [decide_eq_true_eq]
      exact hd0notin
    · simp only [decide_eq_false_iff_not, not_not]
      exact hd0in

/-- Model of `DependencyGraph.get_dependents`: transitive reverse-dependency query,
a worklist search seeded with the queried path and an empty seen set. -/
def DependencyGraph.get_dependents (g : DependencyGraph) (file_path : String) :
    List String :=
  get_dependents_loop g.imported_by [] [file_path]

/-! ### Character-list string utilities

Python string/`pathlib` operations used by the source, modelled over
`List Char` (Lean's `String.splitOn` etc. do not reduce in the kernel).
Whitespace and case conversion are ASCII, which covers every string the
source manipulates. -/

/-- Python `str.split(sep)` for a one-character separator: keeps empty
fields, never returns an empty list. -/
def chSplit (sep : Char) : List Char → List (List Char)
  | [] => [[]]
  | c :: cs =>
    if c = sep then [] :: chSplit sep cs
    else
      match chSplit sep cs with
      | [] => [[c]]
      | w :: ws => (c :: w) :: ws

/-- Python `str.strip()` (ASCII whitespace). -/
def chTrim (l : List Char) : List Char :=
  ((l.dropWhile Char.isWhitespace).reverse.dropWhile Char.isWhitespace).reverse

/-- Python `needle in hay` substring test. -/
def containsSub (needle : List Char) : List Char → Bool
  | [] => needle.isEmpty
  | c :: cs => needle.isPrefixOf (c :: cs) || containsSub needle cs

/-- Python `str.lower()` (ASCII). -/
def chLower (l : List Char) : List Char := l.map Char.toLower

/-- Python `" ".join(strings)`. -/
def joinSpace : List String → List Char
  | [] => []
  | [s] => s.data
  | s :: rest => s.data ++ ' ' :: joinSpace rest

/-- Python `str.endswith(suffix)`. -/
def strEndsWith (s suf : String) : Bool :=
  suf.data.reverse.isPrefixOf s.data.reverse

/-- Model of `pathlib.Path(p).parts`, without the root entry (no ignore pattern or
file name equals `/`). -/
def pathParts (s : String) : List String :=
  ((chSplit '/' s.data).map (fun l => String.mk l)).filter (fun t => t ≠ "")

/-- Model of `pathlib.Path(p).name`. -/
def pathName (s : String) : String :=
  (pathParts s).getLast?.getD ""

/-- Model of `pathlib.Path(p).suffix`: the extension of the final component,
empty when the only dot is leading or trailing. -/
def pathSuffix (s : String) : String :=
  let name := (pathName s).data
  let r := name.reverse
  let ext := r.takeWhile (fun c => !(c == '.'))
  let rest := r.dropWhile (fun c => !(c == '.'))
  match rest with
  | [] => ""
  | _ :: restTail =>
    if restTail = [] ∨ ext = [] then "" else String.mk ('.' :: ext.reverse)

/-! ### Change Tracker (`src/umbra/agents/tracker.py`)

External effects are abstracted as an `Oracles` record: the `ast` parser
behind `_extract_imports` and the syntax-error warning, the LLM behind
`_llm_description`, the `GOOGLE_API_KEY` environment probe, and the
clock.  Everything else is translated directly. -/

/-- Model of `ChangeType` enum. -/
inductive ChangeType
  | CREATED
  | MODIFIED
  | DELETED
  | RENAMED
deriving DecidableEq, Repr

/-- Model of `ChangeIntent` enum. -/
inductive ChangeIntent
  | FEATURE
  | BUGFIX
  | REFACTOR
  | CLEANUP
  | CONFIG
  | BREAKING
  | UNKNOWN
deriving DecidableEq, Repr

/-- Model of `ImpactLevel` enum. -/
inductive ImpactLevel
  | NONE
  | LOW
  | MEDIUM
  | HIGH
  | CRITICAL
deriving DecidableEq, Repr

/-- Model of `FileImpact` dataclass. -/
structure FileImpact where
  file_path : String
  impact_type : String
  description : String
deriving DecidableEq, Repr

/-- One entry of the `diff_lines` argument: a dict with keys `type` and
`line`. -/
structure DiffLine where
  type : String
  line : String
deriving DecidableEq, Repr

/-- The `stats` argument: `stats.get("added", 0)` / `stats.get("removed", 0)`. -/
structure Stats where
  added : Nat
  removed : Nat
deriving DecidableEq, Repr

/-- Model of `TrackedChange` dataclass (timestamp as an abstract tick). -/
structure TrackedChange where
  timestamp : Nat
  file_path : String
  change_type : ChangeType
  intent : ChangeIntent
  description : String
  diff_summary : String
  lines_added : Nat
  lines_removed : Nat
  impacted_files : List FileImpact
  impact_level : ImpactLevel
  session_id : String
  warnings : List String
deriving DecidableEq, Repr

/-- Mutable state of a `ChangeTracker` instance. -/
structure ChangeTracker where
  session_id : String
  changes : List TrackedChange
  dependency_graph : DependencyGraph
deriving DecidableEq, Repr

/-- External collaborators of the tracker: `_extract_imports` delegates
to the `ast` module, the syntax check to `ast.parse` (returning the
`SyntaxError`'s line number and message when parsing fails), the
description to the LLM client (`none` models an exception; the returned
string is the already post-processed response text), `api_key_present`
models the `GOOGLE_API_KEY` probe and `now` the clock. -/
structure Oracles where
  extract_imports : String → String → List String
  py_parse_error : String → Option (Nat × String)
  api_key_present : Bool
  llm_describe : String → List DiffLine → Stats → Option String
  now : Nat

/-- Model of `ChangeTracker._calculate_impact_level`. -/
def calculate_impact_level (impacts : List FileImpact) : ImpactLevel :=
  if impacts.any (fun i => i.impact_type == "broken_import") then
    ImpactLevel.CRITICAL
  else
    let count := impacts.length
    if count = 0 then ImpactLevel.NONE
    else if count ≤ 2 then ImpactLevel.LOW
    else if count ≤ 5 then ImpactLevel.MEDIUM
    else ImpactLevel.HIGH

/-- Model of `ChangeTracker._analyze_impact`: one `FileImpact` per transitive
dependent of the changed file, with `broken_import` for deletions. -/
def analyze_impact (g : DependencyGraph) (file_path : String)
    (change_type : ChangeType) : List FileImpact :=
  (g.get_dependents file_path).map (fun dep =>
    if change_type = ChangeType.DELETED then
      ⟨dep, "broken_import", "Imports deleted file " ++ pathName file_path⟩
    else
      ⟨dep, "imports", "Imports " ++ pathName file_path⟩)

/-- Bug-fix keywords scanned in added lines (`_detect_intent`). -/
def bugfix_patterns : List String :=
  ["fix", "bug", "issue", "error", "exception", "handle"]

/-- Model of `ChangeTracker._detect_intent`.  The float ratio test
`0.8 <= added / max(removed, 1) <= 1.2` is modelled with exact rational
arithmetic (`4 * r ≤ 5 * added ∧ 5 * added ≤ 6 * r`). -/
def detect_intent (file_path : String) (diff_lines : List DiffLine)
    (stats : Stats) : ChangeIntent :=
  let file_name := chLower (pathName file_path).data
  if containsSub "test".data file_name then ChangeIntent.FEATURE
  else if containsSub "config".data file_name
      || String.mk file_name == ".env" || String.mk file_name == "settings.py" then
    ChangeIntent.CONFIG
  else
    let added_lines := (diff_lines.filter (fun d => d.type == "add")).map (fun d => d.line)
    let added_text := chLower (joinSpace added_lines)
    if bugfix_patterns.any (fun p => containsSub p.data added_text) then
      ChangeIntent.BUGFIX
    else if stats.added > 0 && stats.removed > 0
        && (let r := max stats.removed 1
            4 * r ≤ 5 * stats.added && 5 * stats.added ≤ 6 * r) then
      ChangeIntent.REFACTOR
    else if stats.removed > stats.added * 2 then ChangeIntent.CLEANUP
    else if stats.added > stats.removed then ChangeIntent.FEATURE
    else ChangeIntent.UNKNOWN

/-- Model of `ChangeTracker._generate_description` (with `_llm_description`
folded in through the oracle, including its exception fallback). -/
def generate_description (o : Oracles) (file_path : String)
    (change_type : ChangeType) (diff_lines : List DiffLine) (stats : Stats) :
    String :=
  let file_name := pathName file_path
  let fallback :=
    "Modified " ++ file_name ++ ": +" ++ toString stats.added ++ " -" ++
      toString stats.removed ++ " lines"
  if change_type = ChangeType.CREATED then "New file created: " ++ file_name
  else if change_type = ChangeType.DELETED then "File deleted: " ++ file_name
  else if o.api_key_present && !diff_lines.isEmpty then
    match o.llm_describe file_name diff_lines stats with
    | some s => s
    | none => fallback
  else fallback

/-- The four hard-coded secret regexes of `_detect_warnings`. -/
inductive SecretPattern
  | api_key
  | password
  | secret
  | token
deriving DecidableEq, Repr

/-- The `secret_patterns` list, in source order. -/
def secret_patterns : List SecretPattern :=
  [SecretPattern.api_key, SecretPattern.password, SecretPattern.secret,
   SecretPattern.token]

/-- Match the key part of a secret pattern (`api[_-]?key`, `password`,
`secret`, `token`) at the head of `l`, returning the remainder. -/
def matchKey : SecretPattern → List Char → Option (List Char)
  | SecretPattern.api_key, l =>
    if "api".data.isPrefixOf l then
      let r := l.drop 3
      match r with
      | c :: r2 =>
        if (c = '_' ∨ c = '-') && "key".data.isPrefixOf r2 then some (r2.drop 3)
        else if "key".data.isPrefixOf r then some (r.drop 3)
        else none
      | [] => none
    else none
  | SecretPattern.password, l =>
    if "password".data.isPrefixOf l then some (l.drop 8) else none
  | SecretPattern.secret, l =>
    if "secret".data.isPrefixOf l then some (l.drop 6) else none
  | SecretPattern.token, l =>
    if "token".data.isPrefixOf l then some (l.drop 5) else none

/-- Match `\s*=\s*["\'][^"\']+["\']` at the head of `l`. -/
def matchAssign (l : List Char) : Bool :=
  match l.dropWhile Char.isWhitespace with
  | '=' :: r2 =>
    match r2.dropWhile Char.isWhitespace with
    | q :: r4 =>
      if q = '"' ∨ q = '\'' then
        let body := r4.takeWhile (fun c => !(c == '"') && !(c == '\''))
        match r4.drop body.length with
        | q2 :: _ => !body.isEmpty && (q2 = '"' ∨ q2 = '\'')
        | [] => false
      else false
    | [] => false
  | _ => false

/-- Model of `re.search` of one secret pattern over (already lowercased) content. -/
def secretSearch (p : SecretPattern) : List Char → Bool
  | [] => false
  | c :: cs =>
    (match matchKey p (c :: cs) with
     | some rest => matchAssign rest
     | none => false) || secretSearch p cs

/-- The security warning string appended on a secret match. -/
def secret_warning_text : String :=
  "SECURITY: Possible hardcoded secret detected"

/-- The `for pattern in secret_patterns` loop of `_detect_warnings`:
appends the warning once and `break`s on the first matching pattern. -/
def secretLoop (content : List Char) : List SecretPattern → List String
  | [] => []
  | p :: ps =>
    if secretSearch p content then [secret_warning_text]
    else secretLoop content ps

/-- Model of `ChangeTracker._detect_warnings`: breaking-deletion warning (from the
current graph's reverse entry), syntax-error warning (via the `ast`
oracle), and the first-match secret warning. -/
def detect_warnings (o : Oracles) (g : DependencyGraph) (file_path : String)
    (change_type : ChangeType) (old_content new_content : Option String) :
    List String :=
  let w1 : List String :=
    if change_type = ChangeType.DELETED then
      let dependents := (dictGet g.imported_by file_path).getD []
      if dependents ≠ [] then
        ["BREAKING: " ++ toString dependents.length ++
          " file(s) import this deleted file"]
      else []
    else []
  let w2 : List String :=
    match new_content with
    | some nc =>
      if nc ≠ "" && strEndsWith file_path ".py" then
        match o.py_parse_error nc with
        | some e => ["SYNTAX ERROR: Line " ++ toString e.1 ++ ": " ++ e.2]
        | none => []
      else []
    | none => []
  let w3 : List String :=
    match new_content with
    | some nc =>
      if nc ≠ "" then secretLoop (chLower nc.data) secret_patterns else []
    | none => []
  w1 ++ w2 ++ w3

/-- Model of `ChangeTracker._create_diff_summary`. -/
def create_diff_summary (diff_lines : List DiffLine) (stats : Stats) : String :=
  let parts :=
    (if stats.added ≠ 0 then ["+" ++ toString stats.added] else []) ++
    (if stats.removed ≠ 0 then ["-" ++ toString stats.removed] else [])
  if parts = [] then "no changes" else String.mk (joinSpace parts)

/-- Model of `ChangeTracker.track_change`: update the graph (remove on delete,
re-add otherwise), then analyze impact and warnings against the *updated*
graph, build the `TrackedChange` and append it to the session history. -/
def ChangeTracker.track_change (o : Oracles) (t : ChangeTracker)
    (file_path : String) (change_type : ChangeType)
    (old_content new_content : Option String) (diff_lines : List DiffLine)
    (stats : Stats) : TrackedChange × ChangeTracker :=
  let g1 :=
    if change_type = ChangeType.DELETED then
      t.dependency_graph.remove_file file_path
    else
      match new_content with
      | some nc =>
        if nc ≠ "" then t.dependency_graph.add_file o.extract_imports file_path nc
        else t.dependency_graph
      | none => t.dependency_graph
  let impacted_files := analyze_impact g1 file_path change_type
  let impact_level := calculate_impact_level impacted_files
  let intent := detect_intent file_path diff_lines stats
  let description := generate_description o file_path change_type diff_lines stats
  let warnings := detect_warnings o g1 file_path change_type old_content new_content
  let diff_summary := create_diff_summary diff_lines stats
  let change : TrackedChange :=
    ⟨o.now, file_path, change_type, intent, description, diff_summary,
     stats.added, stats.removed, impacted_files, impact_level, t.session_id,
     warnings⟩
  (change, { t with changes := t.changes ++ [change], dependency_graph := g1 })

/-- The tracker method seeding the graph from a project snapshot
(named `initialize` in the source). -/
def ChangeTracker.initialize_graph (extract : String → String → List String)
    (t : ChangeTracker) (files : List (String × String)) : ChangeTracker :=
  { t with dependency_graph :=
      files.foldl (fun g kv => g.add_file extract kv.1 kv.2) t.dependency_graph }

/-- A fresh tracker (`ChangeTracker.__init__`). -/
def ChangeTracker.fresh (session_id : String) : ChangeTracker :=
  ⟨session_id, [], DependencyGraph.empty⟩

/-! ### Mermaid validator (`src/umbra/validators/mermaid.py`) -/

/-- Model of `ValidationResult` dataclass. -/
structure ValidationResult where
  is_valid : Bool
  errors : List String
  warnings : List String
deriving DecidableEq, Repr

/-- Model of `re.match(r"^(graph|flowchart)\s+(TD|TB|LR|RL|BT)", line)` against one
keyword: the keyword, at least one whitespace, then an orientation token. -/
def matchDir (kw : List Char) (l : List Char) : Bool :=
  kw.isPrefixOf l &&
  (match l.drop kw.length with
   | c :: _ =>
     Char.isWhitespace c &&
     (["TD", "TB", "LR", "RL", "BT"].any
       (fun t => t.data.isPrefixOf ((l.drop kw.length).dropWhile Char.isWhitespace)))
   | [] => false)

/-- Rule 1 directive test on the stripped first line. -/
def directive_ok (l : List Char) : Bool :=
  matchDir "graph".data l || matchDir "flowchart".data l

/-- Rule 3 markup/script-injection substrings, in source order. -/
def dangerous_patterns : List String :=
  ["<script", "javascript:", "onclick", "onerror"]

/-- One character of `\w` (ASCII). -/
def isWordChar (c : Char) : Bool := c.isAlphanum || c = '_'

/-- Model of `re.search(r"\w+->\w+", text)`: some word character directly before
`->` and some word character directly after. -/
def hasShortArrow : List Char → Bool
  | [] => false
  | a :: rest =>
    (match rest with
     | '-' :: '>' :: b :: _ => isWordChar a && isWordChar b
     | _ => false) || hasShortArrow rest

/-- Scan for the first `.*?\n\s*end` continuation (lazy `.*?` with
`re.DOTALL`): the earliest newline followed by a whitespace run and the
literal `end`; returns the consumed length. -/
def findNlEnd : List Char → Option Nat
  | [] => none
  | c :: t =>
    if c = '\n' then
      let run := t.takeWhile Char.isWhitespace
      if "end".data.isPrefixOf (t.drop run.length) then some (1 + run.length + 3)
      else (findNlEnd t).map (fun n => n + 1)
    else (findNlEnd t).map (fun n => n + 1)

/-- Backtracking over the greedy `\s+` after `subgraph`: try the maximal
whitespace run first, shrinking until the lazy rest matches. -/
def matchFromWs (afterKw : List Char) : Nat → Option Nat
  | 0 => none
  | w + 1 =>
    match findNlEnd (afterKw.drop (w + 1)) with
    | some n => some (8 + (w + 1) + n)
    | none => matchFromWs afterKw w

/-- Match `subgraph\s+.*?\n\s*end` (re.DOTALL) at the head of `l`,
returning the match length. -/
def matchEmptySubgraphAt (l : List Char) : Option Nat :=
  if "subgraph".data.isPrefixOf l then
    let afterKw := l.drop 8
    let wsrun := afterKw.takeWhile Char.isWhitespace
    if wsrun.isEmpty then none else matchFromWs afterKw wsrun.length
  else none

/-- Rule 6: `finditer` over the raw text; for each non-overlapping match,
warn when no line strictly between `subgraph` and `end` has content. -/
def emptySubgraphWarnings : List Char → List String
  | [] => []
  | c :: t =>
    match hm : matchEmptySubgraphAt (c :: t) with
    | some n =>
      let content := (c :: t).take n
      let inner := ((chSplit '\n' content).drop 1).dropLast
      (if inner.all (fun line => (chTrim line).isEmpty) then
        ["Found empty subgraph"]
       else []) ++ emptySubgraphWarnings ((c :: t).drop n)
    | none => emptySubgraphWarnings t
termination_by l => l.length
decreasing_by
  · have hfrom : ∀ (a : List Char) (w k : Nat), matchFromWs a w = some k → 1 ≤ k := by
      intro a w
      induction w with
      | zero => intro k hk; simp [matchFromWs] at hk
      | succ w ih =>
        intro k hk
        simp only [matchFromWs] at hk
        cases hfind : findNlEnd (a.drop (w + 1)) with
        | none => rw [hfind] at hk; exact ih k hk
        | some m => rw [hfind] at hk; simp at hk; omega
    have hat : ∀ (l : List Char) (k : Nat), matchEmptySubgraphAt l = some k → 1 ≤ k := by
      intro l k hk
      simp only [matchEmptySubgraphAt] at hk
      by_cases hp : ("subgraph".data.isPrefixOf l) = true
      · rw [if_pos hp] at hk
        by_cases hw : ((l.drop 8).takeWhile Char.isWhitespace).isEmpty = true
        · rw [if_pos hw] at hk; exact absurd hk (by simp)
        · rw [if_neg hw] at hk
          exact hfrom _ _ _ hk
      · rw [if_neg hp] at hk
        exact absurd hk (by simp)
    have hpos : 1 ≤ n := hat _ _ hm
    simp only [List.length_drop, List.length_cons]
    omega
  · simp only [List.length_cons]
    omega

/-- Model of `validate_mermaid`: the five error rules and two warning rules, with
`is_valid` defined as emptiness of the error list. -/
def validate_mermaid (mermaid : String) : ValidationResult :=
  if mermaid = "" ∨ (chTrim mermaid.data).isEmpty then
    ⟨false, ["Empty diagram"], []⟩
  else
    let lines := chSplit '\n' (chTrim mermaid.data)
    let first_line := chTrim (lines.headD [])
    let e1 :=
      if directive_ok first_line then []
      else ["Diagram must start with 'graph TD' or similar directive, got: " ++
            String.mk (first_line.take 50)]
    let subgraph_count :=
      (lines.filter (fun line => "subgraph".data.isPrefixOf (chTrim line))).length
    let end_count := (lines.filter (fun line => chTrim line = "end".data)).length
    let e2 :=
      if subgraph_count ≠ end_count then
        ["Unbalanced subgraphs: " ++ toString subgraph_count ++
          " 'subgraph' vs " ++ toString end_count ++ " 'end'"]
      else []
    let e3 :=
      (dangerous_patterns.filter
        (fun p => containsSub (chLower p.data) (chLower mermaid.data))).map
        (fun p => "Potentially dangerous content detected: " ++ p)
    let countLB := mermaid.data.count '['
    let countRB := mermaid.data.count ']'
    let e4 :=
      if countLB ≠ countRB then
        ["Unbalanced square brackets: " ++ toString countLB ++ " '[' vs " ++
          toString countRB ++ " ']'"]
      else []
    let countLP := mermaid.data.count '('
    let countRP := mermaid.data.count ')'
    let e5 :=
      if countLP ≠ countRP then
        ["Unbalanced parentheses: " ++ toString countLP ++ " '(' vs " ++
          toString countRP ++ " ')'"]
      else []
    let errors := e1 ++ e2 ++ e3 ++ e4 ++ e5
    let w1 :=
      if hasShortArrow mermaid.data then
        ["Found '->' instead of '-->'. Consider using '-->' for arrows."]
      else []
    let w2 := emptySubgraphWarnings mermaid.data
    ⟨errors.isEmpty, errors, w1 ++ w2⟩

/-! ### Diagram pipeline (`src/umbra/agents/orchestrator.py`)

The LangGraph wiring of `build_graph` is modelled as a recursive run of
the surgeon → validator → router loop.  The external classifier and
generator are oracles; `writer_node` is modelled from the spec (the
`umbra.agents.writer` module is referenced but absent from src/). -/

/-- Model of `MAX_RETRIES` from `orchestrator.py`. -/
def MAX_RETRIES : Nat := 3

/-- The pipeline state fields the retry loop touches, plus the persisted
diagram of the DiagramStore. -/
structure PipeState where
  retry_count : Nat
  updated_mermaid : Option String
  is_valid_mermaid : Bool
  validation_error : Option String
  persisted : String
deriving DecidableEq, Repr

/-- Python `"; ".join` style joining. -/
def joinSep (sep : List Char) : List String → List Char
  | [] => []
  | [s] => s.data
  | s :: rest => s.data ++ sep ++ joinSep sep rest

/-- Whether `validator_node` accepts a candidate: `None` and the empty
string fail the `if not updated` guard, everything else runs
`validate_mermaid`. -/
def validCandidate : Option String → Bool
  | none => false
  | some u => if u = "" then false else (validate_mermaid u).is_valid

/-- Model of `validator_node` from `mermaid.py`: state effect on validity and the
joined error message. -/
def validator_node (s : PipeState) : PipeState :=
  match s.updated_mermaid with
  | none =>
    { s with is_valid_mermaid := false,
             validation_error := some "No diagram to validate" }
  | some u =>
    if u = "" then
      { s with is_valid_mermaid := false,
               validation_error := some "No diagram to validate" }
    else
      let result := validate_mermaid u
      if result.is_valid then
        { s with is_valid_mermaid := true, validation_error := none }
      else
        { s with is_valid_mermaid := false,
                 validation_error := some (String.mk (joinSep "; ".data result.errors)) }

/-- Model of `check_validity` router function. -/
def check_validity (s : PipeState) : String :=
  if s.is_valid_mermaid then "valid"
  else if s.retry_count ≥ MAX_RETRIES then "abort"
  else "retry"

/-- Model of `increment_retry` node. -/
def increment_retry (s : PipeState) : PipeState :=
  { s with retry_count := s.retry_count + 1 }

/-- Model of `surgeon_node` state effect: stores the external generator's
candidate (`none` models a generation failure, source line 146). -/
def surgeon_node (candidate : Option String) (s : PipeState) : PipeState :=
  { s with updated_mermaid := candidate }

/-- Modelled from the spec: `writer_node` (module `umbra.agents.writer`
is absent from src/); per §6 DiagramStore the validated candidate
replaces the persisted diagram. -/
def writer_node (s : PipeState) : PipeState :=
  { s with persisted := s.updated_mermaid.getD s.persisted }

/-- Terminal outcomes of one event's pipeline run. -/
inductive PipeOutcome
  | Written
  | Skipped
  | Aborted
deriving DecidableEq, Repr

/-- The `surgeon → validator → check_validity` loop of `build_graph`:
`valid` goes to the writer, `abort` ends, `retry` increments the counter
and loops back to the surgeon.  `gen` is the external generator oracle,
indexed by the current retry count. -/
def pipeline_from_surgeon (gen : Nat → Option String) (s : PipeState) :
    PipeOutcome × PipeState :=
  let s2 := validator_node (surgeon_node (gen s.retry_count) s)
  if s2.is_valid_mermaid then (PipeOutcome.Written, writer_node s2)
  else if s2.retry_count ≥ MAX_RETRIES then (PipeOutcome.Aborted, s2)
  else pipeline_from_surgeon gen (increment_retry s2)
termination_by MAX_RETRIES + 1 - s.retry_count
decreasing_by
  have hv : ∀ u, (validator_node (surgeon_node u s)).retry_count = s.retry_count := by
    intro u
    cases u with
    | none => rfl
    | some w =>
      by_cases hw : w = ""
      · simp [validator_node, surgeon_node, hw]
      · by_cases hval : (validate_mermaid w).is_valid = true
        · simp [validator_node, surgeon_node, hw, hval]
        · simp [validator_node, surgeon_node, hw, hval]
  rename_i hvalid habort
  rw [hv] at habort
  simp only [increment_retry, hv]
  omega

/-- The full event flow of `build_graph` after the analyst: skip when the
external classification is not structural, otherwise run the update loop. -/
def run_event (structural : Bool) (gen : Nat → Option String) (s : PipeState) :
    PipeOutcome × PipeState :=
  if structural then pipeline_from_surgeon gen s else (PipeOutcome.Skipped, s)

/-! ### Debounced watcher (`src/umbra/watcher/file_watcher.py`)

The handler state is the pending-event dict plus the single
`threading.Timer`, modelled by its deadline; time is an abstract tick. -/

/-- Raw filesystem event kinds. -/
inductive EventType
  | created
  | modified
  | deleted
deriving DecidableEq, Repr

/-- Model of `FileChangeEvent` dataclass. -/
structure FileChangeEvent where
  file_path : String
  event_type : EventType
  timestamp : Nat
  diff : Option String
deriving DecidableEq, Repr

/-- Model of `WATCH_EXTENSIONS`. -/
def WATCH_EXTENSIONS : List String := [".py", ".js", ".jsx", ".ts", ".tsx"]

/-- Model of `IGNORE_PATTERNS`. -/
def IGNORE_PATTERNS : List String :=
  ["__pycache__", ".git", ".venv", "venv", ".env", "node_modules",
   ".pytest_cache", ".ruff_cache", "__pypackages__"]

/-- Model of `DebouncedHandler._should_ignore`: wrong extension or an ignored
path segment. -/
def should_ignore (path : String) : Bool :=
  if !(WATCH_EXTENSIONS.contains (pathSuffix path)) then true
  else if IGNORE_PATTERNS.any (fun pat => (pathParts path).contains pat) then true
  else false

/-- Model of `DebouncedHandler` mutable state: the per-path pending-event dict and
the one shared timer (its deadline, `none` when no timer is scheduled). -/
structure HandlerState where
  pending_events : List (String × FileChangeEvent)
  timer : Option Nat
deriving DecidableEq, Repr

/-- A fresh handler. -/
def HandlerState.init : HandlerState := ⟨[], none⟩

/-- Model of `event_type` as the string used in the diff note. -/
def eventTypeStr : EventType → String
  | EventType.created => "created"
  | EventType.modified => "modified"
  | EventType.deleted => "deleted"

/-- Model of `DebouncedHandler._handle_event` followed by `_schedule_callback`:
drop ignored paths, build the event (the `path.exists()` probe is the
oracle `fs_exists`), overwrite this path's pending entry, then cancel
and restart the one shared timer. -/
def handle_event (fs_exists : String → Bool) (debounce now : Nat)
    (event_type : EventType) (src_path : String) (s : HandlerState) :
    HandlerState :=
  if should_ignore src_path then s
  else
    let diff :=
      if event_type ≠ EventType.deleted && fs_exists src_path then
        some ("File " ++ eventTypeStr event_type ++ ": " ++ pathName src_path)
      else none
    let change_event : FileChangeEvent := ⟨src_path, event_type, now, diff⟩
    { pending_events := dictSet s.pending_events src_path change_event,
      timer := some (now + debounce) }

/-- Model of `DebouncedHandler._fire_callback`: emit every pending event (dict
insertion order), clear the buffer and the timer. -/
def fire_callback (s : HandlerState) : List FileChangeEvent × HandlerState :=
  (s.pending_events.map (fun kv => kv.2), ⟨[], none⟩)

/-! ### Specification-level predicates and concrete instances -/

/-- One reverse-dependency step: `b ∈ imported_by[a]`. -/
def dependsEdge (ib : List (String × List String)) (a b : String) : Prop :=
  b ∈ (dictGet ib a).getD []

/-- The spec's Dependency Graph invariant: the forward and reverse
indices are exact inverses of each other. -/
def inverseInvariant (g : DependencyGraph) : Prop :=
  ∀ p m : String,
    m ∈ (dictGet g.imports p).getD [] ↔ p ∈ (dictGet g.imported_by m).getD []

/-- Import extractor realizing `import x` / `import y` contents (the
result of `ast` on those two files). -/
def c2Extract : String → String → List String :=
  fun content _ => if content = "import x" then ["x"] else ["y"]

/-- The graph after `add_file("a.py", "import x")` then
`add_file("a.py", "import y")`. -/
def c2Graph : DependencyGraph :=
  (DependencyGraph.empty.add_file c2Extract "a.py" "import x").add_file
    c2Extract "a.py" "import y"

/-- Benign oracle set: extraction resolves `b.py`'s import to the module
reference `a.py`, parsing always succeeds, no API key, clock at 0. -/
def c1Oracles : Oracles :=
  ⟨fun _ _ => ["a.py"], fun _ => none, false, fun _ _ _ => none, 0⟩

/-- Tracker seeded with one live dependent: `b.py` imports `a.py`. -/
def c1Tracker : ChangeTracker :=
  (ChangeTracker.fresh "s").initialize_graph c1Oracles.extract_imports
    [("b.py", "import a")]

/-- Oracle set with no imports extracted at all (used for the history
claims, where the graph is irrelevant). -/
def c9Oracles : Oracles :=
  ⟨fun _ _ => [], fun _ => none, false, fun _ _ _ => none, 0⟩

/-- Content matching both the `api[_-]?key` and `password` secret
patterns. -/
def c10Content : String := "api_key = \"A\"\npassword = \"B\""

/-! ## Theorems -/

/-- C7: the impact level computed from a list of FileImpacts is Critical
whenever any impact has type `broken_import`, regardless of count;
otherwise None for 0 impacts, Low for 1-2, Medium for 3-5, High for 6 or
more. -/
theorem C7_impact_level_thresholds :
    ∀ impacts : List FileImpact,
      ((∃ i ∈ impacts, i.impact_type = "broken_import") →
        calculate_impact_level impacts = ImpactLevel.CRITICAL) ∧
      ((∀ i ∈ impacts, i.impact_type ≠ "broken_import") →
        (impacts.length = 0 → calculate_impact_level impacts = ImpactLevel.NONE) ∧
        (1 ≤ impacts.length → impacts.length ≤ 2 →
          calculate_impact_level impacts = ImpactLevel.LOW) ∧
        (3 ≤ impacts.length → impacts.length ≤ 5 →
          calculate_impact_level impacts = ImpactLevel.MEDIUM) ∧
        (6 ≤ impacts.length → calculate_impact_level impacts = ImpactLevel.HIGH)) := by
  intro impacts
  constructor
  · intro hex
    have hany : (impacts.any fun i => i.impact_type == "broken_import") = true := by
      simpa [List.any_eq_true] using hex
    simp only [calculate_impact_level, hany, if_true]
  · intro hall
    have hany : (impacts.any fun i => i.impact_type == "broken_import") = false := by
      simp only [List.any_eq_false, beq_iff_eq]
      exact hall
    refine ⟨?_, ?_, ?_, ?_⟩
    · intro h0
      simp [calculate_impact_level, hany, h0]
    · intro h1 h2
      simp only [calculate_impact_level, hany, Bool.false_eq_true, if_false]
      rw [if_neg (by omega), if_pos h2]
    · intro h3 h5
      simp only [calculate_impact_level, hany, Bool.false_eq_true, if_false]
      rw [if_neg (by omega), if_neg (by omega), if_pos h5]
    · intro h6
      simp only [calculate_impact_level, hany, Bool.false_eq_true, if_false]
      rw [if_neg (by omega), if_neg (by omega), if_neg (by omega)]

/-- Witness for C7 at concrete inputs, one per severity bucket. -/
theorem C7_impact_level_thresholds_witness :
    calculate_impact_level [⟨"b.py", "broken_import", "d"⟩] = ImpactLevel.CRITICAL ∧
    calculate_impact_level [] = ImpactLevel.NONE ∧
    calculate_impact_level [⟨"1", "imports", "d"⟩] = ImpactLevel.LOW ∧
    calculate_impact_level
      [⟨"1", "imports", "d"⟩, ⟨"2", "imports", "d"⟩, ⟨"3", "imports", "d"⟩] =
      ImpactLevel.MEDIUM ∧
    calculate_impact_level
      [⟨"1", "imports", "d"⟩, ⟨"2", "imports", "d"⟩, ⟨"3", "imports", "d"⟩,
       ⟨"4", "imports", "d"⟩, ⟨"5", "imports", "d"⟩, ⟨"6", "imports", "d"⟩] =
      ImpactLevel.HIGH :=
  ⟨(C7_impact_level_thresholds _).1 (by decide),
   ((C7_impact_level_thresholds _).2 (by decide)).1 (by decide),
   ((C7_impact_level_thresholds _).2 (by decide)).2.1 (by decide) (by decide),
   ((C7_impact_level_thresholds _).2 (by decide)).2.2.1 (by decide) (by decide),
   ((C7_impact_level_thresholds _).2 (by decide)).2.2.2 (by decide)⟩

/-- C2: refuted.  After `add_file("a.py", "import x")` then
`add_file("a.py", "import y")` the reverse index still records `a.py`
under `x`, but `x` is no longer in `imports["a.py"]` — the indices are
not inverses. -/
theorem C2_inverse_invariant_violated :
    ¬ inverseInvariant c2Graph ∧
    "a.py" ∈ (dictGet c2Graph.imported_by "x").getD [] ∧
    "x" ∉ (dictGet c2Graph.imports "a.py").getD [] := by
  refine ⟨fun hinv => ?_, by decide, by decide⟩
  have h := (hinv "a.py" "x").mpr (by decide)
  exact absurd h (by decide)

/-- C9 counterexample: after two `track_change` calls the history head is
the *first* change, not the most recent one — the history is appended,
not prepended. -/
theorem C9_history_not_prepended :
    ((((ChangeTracker.fresh "s").track_change c9Oracles "a.py"
        ChangeType.CREATED none (some "pass") [] ⟨1, 0⟩).2.track_change
        c9Oracles "b.py" ChangeType.CREATED none (some "pass") []
        ⟨1, 0⟩).2.changes.map (fun c => c.file_path) = ["a.py", "b.py"]) ∧
    ((((ChangeTracker.fresh "s").track_change c9Oracles "a.py"
        ChangeType.CREATED none (some "pass") [] ⟨1, 0⟩).2.track_change
        c9Oracles "b.py" ChangeType.CREATED none (some "pass") []
        ⟨1, 0⟩).2.changes.head?.map (fun c => c.file_path) = some "a.py") ∧
    "a.py" ≠ "b.py" := by
  refine ⟨rfl, rfl, by decide⟩

/-- C9 as amended: every `TrackedChange` is appended at the *end* of the
session history (chronological order, most recent last) and each call
grows the history by exactly one entry — there is no cap or eviction. -/
theorem C9_history_appended_unbounded :
    ∀ (o : Oracles) (t : ChangeTracker) (fp : String) (ct : ChangeType)
      (oc nc : Option String) (dl : List DiffLine) (st : Stats),
      (t.track_change o fp ct oc nc dl st).2.changes
        = t.changes ++ [(t.track_change o fp ct oc nc dl st).1] ∧
      (t.track_change o fp ct oc nc dl st).2.changes.length
        = t.changes.length + 1 := by
  intro o t fp ct oc nc dl st
  exact ⟨rfl, by simp [ChangeTracker.track_change]⟩

/-- C8: `validate_mermaid` reports `is_valid` exactly when its error list
is empty (warnings never affect validity), and the example
`"graph TD\nsubgraph \"S\"\nA-->B\nend"` validates with zero errors. -/
theorem C8_validator_validity :
    (∀ m : String,
      (validate_mermaid m).is_valid = true ↔ (validate_mermaid m).errors = []) ∧
    (validate_mermaid "graph TD\nsubgraph \"S\"\nA-->B\nend").is_valid = true ∧
    (validate_mermaid "graph TD\nsubgraph \"S\"\nA-->B\nend").errors = [] := by
  refine ⟨fun m => ?_, by decide, by decide⟩
  by_cases hempty : m = "" ∨ (chTrim m.data).isEmpty = true
  · simp only [validate_mermaid, if_pos hempty]
    simp
  · simp only [validate_mermaid, if_neg hempty]
    simp [List.isEmpty_iff]

/-- A breaking-deletion warning is never the security warning. -/
theorem breaking_ne_secret (k : Nat) :
    ("BREAKING: " ++ toString k ++ " file(s) import this deleted file") ≠
      secret_warning_text := by
  intro h
  have h2 := congrArg (fun s => s.data) h
  simp only [String.data_append] at h2
  simp [secret_warning_text] at h2

/-- A syntax-error warning is never the security warning. -/
theorem syntax_ne_secret (n : Nat) (msg : String) :
    ("SYNTAX ERROR: Line " ++ toString n ++ ": " ++ msg) ≠
      secret_warning_text := by
  intro h
  have h2 := congrArg (fun s => s.data) h
  simp only [String.data_append] at h2
  simp [secret_warning_text] at h2

/-- The first-match secret loop emits at most one warning. -/
theorem secretLoop_count_le_one (content : List Char) (ps : List SecretPattern) :
    (secretLoop content ps).count secret_warning_text ≤ 1 := by
  induction ps with
  | nil => simp [secretLoop]
  | cons p ps ih =>
    by_cases hp : secretSearch p content = true
    · simp [secretLoop, hp]
    · simp only [secretLoop, hp, Bool.false_eq_true, if_false]
      exact ih

/-- C10: for every call to the warning detector with non-empty new
content, at most one security (hardcoded-secret) warning is produced,
even when the content matches several of the secret patterns — the
pattern scan stops at the first match. -/
theorem C10_at_most_one_security_warning :
    ∀ (o : Oracles) (g : DependencyGraph) (fp : String) (ct : ChangeType)
      (oc : Option String) (nc : String), nc ≠ "" →
      (detect_warnings o g fp ct oc (some nc)).count secret_warning_text ≤ 1 := by
  intro o g fp ct oc nc hnc
  simp only [detect_warnings]
  rw [List.count_append, List.count_append]
  have h1 :
      (if ct = ChangeType.DELETED then
        if (dictGet g.imported_by fp).getD [] ≠ [] then
          ["BREAKING: " ++ toString ((dictGet g.imported_by fp).getD []).length ++
            " file(s) import this deleted file"]
        else []
      else []).count secret_warning_text = 0 := by
    split
    · split
      · rw [List.count_eq_zero]
        simp only [List.mem_singleton]
        exact fun hc => (breaking_ne_secret _) hc.symm
      · simp
    · simp
  have h2 :
      (if nc ≠ "" && strEndsWith fp ".py" then
        match o.py_parse_error nc with
        | some e => ["SYNTAX ERROR: Line " ++ toString e.1 ++ ": " ++ e.2]
        | none => []
      else ([] : List String)).count secret_warning_text = 0 := by
    split
    · split
      · rw [List.count_eq_zero]
        simp only [List.mem_singleton]
        exact fun hc => (syntax_ne_secret _ _) hc.symm
      · simp
    · simp
  have h3 :
      (if nc ≠ "" then secretLoop (chLower nc.data) secret_patterns
       else []).count secret_warning_text ≤ 1 := by
    rw [if_pos hnc]
    exact secretLoop_count_le_one _ _
  rw [h1, h2]
  simpa using h3

/-- Witness for C10: content matching both the api-key and password
patterns still yields a single security warning. -/
theorem C10_at_most_one_security_warning_witness :
    secretSearch SecretPattern.api_key (chLower c10Content.data) = true ∧
    secretSearch SecretPattern.password (chLower c10Content.data) = true ∧
    c10Content ≠ "" ∧
    (detect_warnings c9Oracles DependencyGraph.empty "x.py" ChangeType.MODIFIED
        none (some c10Content)).count secret_warning_text ≤ 1 ∧
    (detect_warnings c9Oracles DependencyGraph.empty "x.py" ChangeType.MODIFIED
        none (some c10Content)) = [secret_warning_text] :=
  ⟨by decide, by decide, by decide,
   C10_at_most_one_security_warning c9Oracles DependencyGraph.empty "x.py"
     ChangeType.MODIFIED none c10Content (by decide),
   by decide⟩

/-- A path with no reverse entry has no dependents. -/
theorem get_dependents_lookup_none (g : DependencyGraph) (p : String)
    (h : dictGet g.imported_by p = none) : g.get_dependents p = [] := by
  unfold DependencyGraph.get_dependents
  rw [get_dependents_loop, dif_neg (by simp)]
  simp only [List.getLast_singleton, List.dropLast_single, h, Option.getD_none,
    processDeps]
  rw [get_dependents_loop]
  simp

/-- C1: refuted by the code.  With `b.py` importing module `a.py` live in
the graph, `track_change("a.py", DELETED, ...)` removes the file from the
graph *before* querying dependents, so the resulting change carries
impact level `NONE`, no impacted files and no warnings — not `CRITICAL`
with a breaking-change warning as the claim requires. -/
theorem C1_deletion_queries_graph_after_removal :
    (dictGet c1Tracker.dependency_graph.imported_by "a.py").getD [] = ["b.py"] ∧
    (c1Tracker.track_change c1Oracles "a.py" ChangeType.DELETED
        (some "import a") none [] ⟨0, 3⟩).1.impact_level = ImpactLevel.NONE ∧
    (c1Tracker.track_change c1Oracles "a.py" ChangeType.DELETED
        (some "import a") none [] ⟨0, 3⟩).1.impacted_files = [] ∧
    (c1Tracker.track_change c1Oracles "a.py" ChangeType.DELETED
        (some "import a") none [] ⟨0, 3⟩).1.warnings = [] := by
  have hd : (c1Tracker.dependency_graph.remove_file "a.py").get_dependents "a.py"
      = [] := get_dependents_lookup_none _ _ (by decide)
  refine ⟨by decide, ?_, ?_, by decide⟩
  · simp [ChangeTracker.track_change, analyze_impact, hd, calculate_impact_level]
  · simp [ChangeTracker.track_change, analyze_impact, hd]

/-- Seen-set membership after the inner dependent loop: exactly the old
seen set plus the processed dependents. -/
theorem processDeps_fst_mem :
    ∀ (ds deps tc : List String) (x : String),
      x ∈ (processDeps deps tc ds).1 ↔ x ∈ deps ∨ x ∈ ds := by
  intro ds
  induction ds with
  | nil => intro deps tc x; simp [processDeps]
  | cons d ds ih =>
    intro deps tc x
    by_cases hd : d ∈ deps
    · rw [show processDeps deps tc (d :: ds) = processDeps deps tc ds from by
        simp [processDeps, hd]]
      rw [ih]
      simp only [List.mem_cons]
      constructor
      · rintro (hx | hx)
        · exact Or.inl hx
        · exact Or.inr (Or.inr hx)
      · rintro (hx | rfl | hx)
        · exact Or.inl hx
        · exact Or.inl hd
        · exact Or.inr hx
    · rw [show processDeps deps tc (d :: ds)
          = processDeps (deps ++ [d]) (tc ++ [d]) ds from by
        simp [processDeps, hd]]
      rw [ih]
      simp only [List.mem_append, List.mem_cons, List.not_mem_nil, or_false]
      tauto

/-- Worklist membership after the inner dependent loop: the old worklist
plus the newly discovered dependents. -/
theorem processDeps_snd_mem :
    ∀ (ds deps tc : List String) (x : String),
      x ∈ (processDeps deps tc ds).2 ↔ x ∈ tc ∨ (x ∈ ds ∧ x ∉ deps) := by
  intro ds
  induction ds with
  | nil => intro deps tc x; simp [processDeps]
  | cons d ds ih =>
    intro deps tc x
    by_cases hd : d ∈ deps
    · rw [show processDeps deps tc (d :: ds) = processDeps deps tc ds from by
        simp [processDeps, hd]]
      rw [ih]
      simp only [List.mem_cons]
      constructor
      · rintro (hx | ⟨hx, hnx⟩)
        · exact Or.inl hx
        · exact Or.inr ⟨Or.inr hx, hnx⟩
      · rintro (hx | ⟨rfl | hx, hnx⟩)
        · exact Or.inl hx
        · exact absurd hd hnx
        · exact Or.inr ⟨hx, hnx⟩
    · rw [show processDeps deps tc (d :: ds)
          = processDeps (deps ++ [d]) (tc ++ [d]) ds from by
        simp [processDeps, hd]]
      rw [ih]
      simp only [List.mem_append, List.mem_cons, List.not_mem_nil, or_false]
      constructor
      · rintro ((hx | rfl) | ⟨hx, hnx⟩)
        · exact Or.inl hx
        · exact Or.inr ⟨Or.inl rfl, hd⟩
        · exact Or.inr ⟨Or.inr hx, fun hc => hnx (Or.inl hc)⟩
      · rintro (hx | ⟨rfl | hx, hnx⟩)
        · exact Or.inl (Or.inl hx)
        · exact Or.inl (Or.inr rfl)
        · by_cases hxd : x = d
          · exact Or.inl (Or.inr hxd)
          · exact Or.inr ⟨hx, fun hc => hc.elim hnx hxd⟩

/-- Invariant-based characterization of the worklist loop: starting from
a sound seen set, a worklist rooted at `p`, and frontier closure, the
loop computes exactly the set of nodes reachable from `p` along the
reverse-dependency relation. -/
theorem get_dependents_loop_iff (ib : List (String × List String)) (p : String) :
    ∀ (deps tc : List String),
      (∀ x ∈ deps, Relation.TransGen (dependsEdge ib) p x) →
      (∀ x ∈ tc, x = p ∨ x ∈ deps) →
      (∀ a, (a = p ∨ a ∈ deps) → a ∉ tc →
        ∀ b, dependsEdge ib a b → b ∈ deps) →
      ∀ x, x ∈ get_dependents_loop ib deps tc ↔
        Relation.TransGen (dependsEdge ib) p x := by
  intro deps tc
  induction deps, tc using get_dependents_loop.induct ib with
  | case1 deps =>
    intro hS hT hC x
    rw [get_dependents_loop, dif_pos rfl]
    constructor
    · exact fun hx => hS x hx
    · intro htg
      induction htg with
      | single hpb => exact hC p (Or.inl rfl) (by simp) _ hpb
      | tail hpc hcb ihc =>
        exact hC _ (Or.inr ihc) (by simp) _ hcb
  | case2 deps tc h _ _ _ _ ih =>
    intro hS hT hC x
    have hcurP : tc.getLast h = p ∨ tc.getLast h ∈ deps :=
      hT _ (List.getLast_mem h)
    have hreach : ∀ b, b ∈ (dictGet ib (tc.getLast h)).getD [] →
        Relation.TransGen (dependsEdge ib) p b := by
      intro b hb
      rcases hcurP with hq | hq
      · exact Relation.TransGen.single (by rw [← hq] at *; exact hb)
      · exact Relation.TransGen.tail (hS _ hq) hb
    have hS' : ∀ x ∈ (processDeps deps tc.dropLast
        ((dictGet ib (tc.getLast h)).getD [])).1,
        Relation.TransGen (dependsEdge ib) p x := by
      intro x hx
      rcases (processDeps_fst_mem _ _ _ _).mp hx with hx | hx
      · exact hS x hx
      · exact hreach x hx
    have hT' : ∀ x ∈ (processDeps deps tc.dropLast
        ((dictGet ib (tc.getLast h)).getD [])).2,
        x = p ∨ x ∈ (processDeps deps tc.dropLast
          ((dictGet ib (tc.getLast h)).getD [])).1 := by
      intro x hx
      rcases (processDeps_snd_mem _ _ _ _).mp hx with hx | ⟨hx, hnx⟩
      · have hxtc : x ∈ tc := (List.dropLast_sublist tc).subset hx
        rcases hT x hxtc with hq | hq
        · exact Or.inl hq
        · exact Or.inr ((processDeps_fst_mem _ _ _ _).mpr (Or.inl hq))
      · exact Or.inr ((processDeps_fst_mem _ _ _ _).mpr (Or.inr hx))
    have hC' : ∀ a, (a = p ∨ a ∈ (processDeps deps tc.dropLast
        ((dictGet ib (tc.getLast h)).getD [])).1) →
        a ∉ (processDeps deps tc.dropLast
          ((dictGet ib (tc.getLast h)).getD [])).2 →
        ∀ b, dependsEdge ib a b →
          b ∈ (processDeps deps tc.dropLast
            ((dictGet ib (tc.getLast h)).getD [])).1 := by
      intro a ha hna b hab
      by_cases hac : a = tc.getLast h
      · refine (processDeps_fst_mem _ _ _ _).mpr (Or.inr ?_)
        rw [← hac]
        exact hab
      · have haP : a = p ∨ a ∈ deps := by
          rcases ha with rfl | hax
          · exact Or.inl rfl
          · rcases (processDeps_fst_mem _ _ _ _).mp hax with h1 | h2
            · exact Or.inr h1
            · by_cases had : a ∈ deps
              · exact Or.inr had
              · exact absurd
                  ((processDeps_snd_mem _ _ _ _).mpr (Or.inr ⟨h2, had⟩)) hna
        have hanotc : a ∉ tc := by
          intro hatc
          rw [← List.dropLast_append_getLast h] at hatc
          rcases List.mem_append.mp hatc with h1 | h2
          · exact hna ((processDeps_snd_mem _ _ _ _).mpr (Or.inl h1))
          · exact hac (by simpa using h2)
        exact (processDeps_fst_mem _ _ _ _).mpr (Or.inl (hC a haP hanotc b hab))
    rw [get_dependents_loop, dif_neg h]
    exact ih hS' hT' hC' x

/-- C6: `get_dependents` terminates on every graph, cycles included (the
worklist loop is well-founded because the seen set guards re-visitation),
and its result is exactly the set of nodes reachable from the queried
path along the `imported_by` relation. -/
theorem C6_get_dependents_reachable :
    ∀ (g : DependencyGraph) (p x : String),
      x ∈ g.get_dependents p ↔
        Relation.TransGen (dependsEdge g.imported_by) p x := by
  intro g p x
  refine get_dependents_loop_iff g.imported_by p [] [p] ?_ ?_ ?_ x
  · intro x hx
    simp at hx
  · intro x hx
    simp only [List.mem_singleton] at hx
    exact Or.inl hx
  · intro a ha hna b hab
    rcases ha with rfl | hax
    · exact absurd (List.mem_singleton_self a) hna
    · simp at hax

/-- One surgeon+validator round never touches the retry counter. -/
theorem validator_surgeon_retry_count (c : Option String) (s : PipeState) :
    (validator_node (surgeon_node c s)).retry_count = s.retry_count := by
  cases c with
  | none => rfl
  | some u =>
    by_cases hu : u = ""
    · simp [validator_node, surgeon_node, hu]
    · by_cases hv : (validate_mermaid u).is_valid = true
      · simp [validator_node, surgeon_node, hu, hv]
      · simp [validator_node, surgeon_node, hu, hv]

/-- One surgeon+validator round never touches the persisted diagram. -/
theorem validator_surgeon_persisted (c : Option String) (s : PipeState) :
    (validator_node (surgeon_node c s)).persisted = s.persisted := by
  cases c with
  | none => rfl
  | some u =>
    by_cases hu : u = ""
    · simp [validator_node, surgeon_node, hu]
    · by_cases hv : (validate_mermaid u).is_valid = true
      · simp [validator_node, surgeon_node, hu, hv]
      · simp [validator_node, surgeon_node, hu, hv]

/-- The validity flag after one round is exactly `validCandidate` of the
generator's candidate. -/
theorem validator_surgeon_valid (c : Option String) (s : PipeState) :
    (validator_node (surgeon_node c s)).is_valid_mermaid = validCandidate c := by
  cases c with
  | none => rfl
  | some u =>
    by_cases hu : u = ""
    · simp [validator_node, surgeon_node, validCandidate, hu]
    · by_cases hv : (validate_mermaid u).is_valid = true
      · simp [validator_node, surgeon_node, validCandidate, hu, hv]
      · simp [validator_node, surgeon_node, validCandidate, hu, hv]

/-- When every generated candidate fails validation, the retry loop ends
in `Aborted`, the counter saturates at `MAX_RETRIES`, and the persisted
diagram is untouched. -/
theorem pipeline_all_fail (gen : Nat → Option String)
    (hfail : ∀ k, validCandidate (gen k) = false) :
    ∀ s : PipeState,
      (pipeline_from_surgeon gen s).1 = PipeOutcome.Aborted ∧
      (pipeline_from_surgeon gen s).2.retry_count = max s.retry_count MAX_RETRIES ∧
      (pipeline_from_surgeon gen s).2.persisted = s.persisted := by
  intro s
  induction s using pipeline_from_surgeon.induct gen with
  | case1 s _ hvalid =>
    rw [validator_surgeon_valid, hfail] at hvalid
    exact absurd hvalid (by simp)
  | case2 s _ hinvalid habort =>
    rw [pipeline_from_surgeon, if_neg hinvalid, if_pos habort]
    rw [validator_surgeon_retry_count] at habort
    refine ⟨rfl, ?_, validator_surgeon_persisted _ _⟩
    rw [validator_surgeon_retry_count]
    exact (Nat.max_eq_left habort).symm
  | case3 s s2 hinvalid hnabort ih =>
    rw [pipeline_from_surgeon, if_neg hinvalid, if_neg hnabort]
    have hrc : s2.retry_count = s.retry_count := validator_surgeon_retry_count _ _
    have hper : s2.persisted = s.persisted := validator_surgeon_persisted _ _
    obtain ⟨ih1, ih2, ih3⟩ := ih
    refine ⟨ih1, ?_, ?_⟩
    · rw [ih2]
      have h2 : (increment_retry s2).retry_count = s.retry_count + 1 := by
        simp [increment_retry, hrc]
      rw [h2]
      have hlt : s.retry_count < MAX_RETRIES := by
        rw [hrc] at hnabort
        omega
      rw [Nat.max_eq_right (by omega), Nat.max_eq_right (by omega)]
    · rw [ih3]
      simp [increment_retry, hper]

/-- C3: for any sequence of validator failures during one event's run
(retry count starting at 0), the pipeline reaches the terminal `Aborted`
state after exactly `MAX_RETRIES` retries, never more, and the persisted
diagram after abort equals the persisted diagram before the event began
(the writer step is never reached on the abort path). -/
theorem C3_retry_bound_abort_preserves_diagram :
    ∀ (gen : Nat → Option String) (s : PipeState),
      s.retry_count = 0 → (∀ k, validCandidate (gen k) = false) →
      (pipeline_from_surgeon gen s).1 = PipeOutcome.Aborted ∧
      (pipeline_from_surgeon gen s).2.retry_count = MAX_RETRIES ∧
      (pipeline_from_surgeon gen s).2.persisted = s.persisted := by
  intro gen s h0 hfail
  obtain ⟨h1, h2, h3⟩ := pipeline_all_fail gen hfail s
  refine ⟨h1, ?_, h3⟩
  rw [h2, h0]
  simp

/-- Witness for C3: a generator that always fails, starting from a fresh
state with persisted diagram `graph LR`. -/
theorem C3_retry_bound_witness :
    (pipeline_from_surgeon (fun _ => none)
      ⟨0, none, false, none, "graph LR"⟩).1 = PipeOutcome.Aborted ∧
    (pipeline_from_surgeon (fun _ => none)
      ⟨0, none, false, none, "graph LR"⟩).2.retry_count = MAX_RETRIES ∧
    (pipeline_from_surgeon (fun _ => none)
      ⟨0, none, false, none, "graph LR"⟩).2.persisted = "graph LR" :=
  C3_retry_bound_abort_preserves_diagram (fun _ => none)
    ⟨0, none, false, none, "graph LR"⟩ rfl (fun _ => rfl)

/-- Replacing an existing key's value leaves the first match at that key. -/
theorem find?_map_replace {β : Type} (d : List (String × β)) (k : String) (v : β)
    (h : d.any (fun kv => kv.1 == k) = true) :
    (d.map (fun kv => if kv.1 == k then (k, v) else kv)).find?
      (fun kv => kv.1 == k) = some (k, v) := by
  induction d with
  | nil => simp at h
  | cons e d ih =>
    by_cases he : (e.1 == k) = true
    · simp [List.find?, he]
    · have hd : d.any (fun kv => kv.1 == k) = true := by
        simp only [List.any_cons, he, Bool.false_or] at h
        exact h
      rw [List.map_cons, if_neg he,
        @List.find?_cons_of_neg _ (fun kv => kv.1 == k) e _ he]
      exact ih hd

/-- Appending a fresh key makes it findable. -/
theorem find?_append_fresh {β : Type} (d : List (String × β)) (k : String) (v : β)
    (h : ∀ kv ∈ d, ¬(kv.1 == k) = true) :
    (d ++ [(k, v)]).find? (fun kv => kv.1 == k) = some (k, v) := by
  induction d with
  | nil => simp [List.find?]
  | cons e d ih =>
    rw [List.cons_append,
      @List.find?_cons_of_neg _ (fun kv => kv.1 == k) e _ (h e (by simp))]
    exact ih (fun kv hkv => h kv (by simp [hkv]))

/-- Python dict semantics: after `d[k] = v`, looking up `k` yields `v`. -/
theorem dictGet_dictSet_self {β : Type} (d : List (String × β)) (k : String) (v : β) :
    dictGet (dictSet d k v) k = some v := by
  by_cases h : d.any (fun kv => kv.1 == k) = true
  · rw [dictSet, if_pos h, dictGet, find?_map_replace d k v h]
    rfl
  · have h' : ∀ kv ∈ d, ¬(kv.1 == k) = true := by
      intro kv hkv hc
      exact h (List.any_eq_true.mpr ⟨kv, hkv, hc⟩)
    rw [dictSet, if_neg h, dictGet, find?_append_fresh d k v h']
    rfl

/-- Python dict semantics: after `d[k] = v`, other keys are unchanged. -/
theorem dictGet_dictSet_ne {β : Type} (d : List (String × β)) (k k' : String)
    (v : β) (h : k' ≠ k) : dictGet (dictSet d k v) k' = dictGet d k' := by
  have hkk' : ((k : String) == k') = false := by
    simp only [beq_eq_false_iff_ne, ne_eq]
    exact fun hc => h hc.symm
  by_cases hany : d.any (fun kv => kv.1 == k) = true
  · rw [dictSet, if_pos hany]
    rw [dictGet, dictGet]
    clear hany
    induction d with
    | nil => rfl
    | cons e d ih =>
      by_cases he : (e.1 == k) = true
      · have he1 : e.1 = k := by simpa using he
        have he' : (e.1 == k') = false := by
          rw [he1]
          exact hkk'
        simp only [List.map_cons, if_pos he, List.find?_cons, hkk', he']
        exact ih
      · simp only [List.map_cons, if_neg he, List.find?_cons]
        cases hek : (e.1 == k') with
        | true => simp only [hek]
        | false =>
          simp only [hek]
          exact ih
  · rw [dictSet, if_neg hany]
    rw [dictGet, dictGet]
    clear hany
    induction d with
    | nil =>
      simp only [List.nil_append, List.find?_cons, hkk']
    | cons e d ih =>
      simp only [List.cons_append, List.find?_cons]
      cases hek : (e.1 == k') with
      | true => simp only [hek]
      | false =>
        simp only [hek]
        exact ih


/-- C4 counterexample: with a 2-tick debounce, an accepted event on
`b.py` at tick 1 moves the single shared timer (the only one that can
emit `a.py`'s still-buffered event) from deadline 2 to deadline 3, and
the firing then emits both paths' events in one batch — events for
distinct paths are neither timed independently nor emitted separately. -/
theorem C4_cross_path_timer_reset_counterexample :
    (handle_event (fun _ => false) 2 0 EventType.modified "a.py"
      HandlerState.init).timer = some 2 ∧
    (handle_event (fun _ => false) 2 1 EventType.modified "b.py"
      (handle_event (fun _ => false) 2 0 EventType.modified "a.py"
        HandlerState.init)).timer = some 3 ∧
    dictGet (handle_event (fun _ => false) 2 1 EventType.modified "b.py"
      (handle_event (fun _ => false) 2 0 EventType.modified "a.py"
        HandlerState.init)).pending_events "a.py"
      = some ⟨"a.py", EventType.modified, 0, none⟩ ∧
    (fire_callback (handle_event (fun _ => false) 2 1 EventType.modified "b.py"
      (handle_event (fun _ => false) 2 0 EventType.modified "a.py"
        HandlerState.init))).1.map (fun e => e.file_path) = ["a.py", "b.py"] := by
  decide

/-- C4 as amended: the pending-event buffer is per-path (an accepted
event for `p` overwrites only `p`'s buffered event and leaves every other
path's entry unchanged), but the debounce timer is a single shared one —
any accepted raw event resets it to `now + debounce` for all paths — and
when it fires, the pending events of all paths are emitted together in
one batch and the buffer is cleared. -/
theorem C4_per_path_buffer_single_shared_timer :
    ∀ (fs : String → Bool) (d now : Nat) (et : EventType) (p : String)
      (s : HandlerState),
      should_ignore p = false →
      ((handle_event fs d now et p s).timer = some (now + d)) ∧
      (∀ q, q ≠ p →
        dictGet (handle_event fs d now et p s).pending_events q
          = dictGet s.pending_events q) ∧
      (∃ ev : FileChangeEvent, ev.file_path = p ∧ ev.event_type = et ∧
        ev.timestamp = now ∧
        dictGet (handle_event fs d now et p s).pending_events p = some ev) ∧
      ((fire_callback (handle_event fs d now et p s)).1
        = (handle_event fs d now et p s).pending_events.map (fun kv => kv.2)) ∧
      (fire_callback (handle_event fs d now et p s)).2.pending_events = [] := by
  intro fs d now et p s hp
  rw [handle_event, if_neg (show ¬should_ignore p = true by simp [hp])]
  refine ⟨rfl, ?_, ?_, rfl, rfl⟩
  · intro q hq
    exact dictGet_dictSet_ne _ _ _ _ hq
  · exact ⟨_, rfl, rfl, rfl, dictGet_dictSet_self _ _ _⟩

/-- Witness for C4's amended statement at a concrete accepted path. -/
theorem C4_per_path_buffer_single_shared_timer_witness :
    should_ignore "a.py" = false ∧
    ((handle_event (fun _ => true) 2 5 EventType.created "a.py"
        HandlerState.init).timer = some (5 + 2) ∧
      (∀ q, q ≠ "a.py" →
        dictGet (handle_event (fun _ => true) 2 5 EventType.created "a.py"
          HandlerState.init).pending_events q
          = dictGet HandlerState.init.pending_events q) ∧
      (∃ ev : FileChangeEvent, ev.file_path = "a.py" ∧
        ev.event_type = EventType.created ∧ ev.timestamp = 5 ∧
        dictGet (handle_event (fun _ => true) 2 5 EventType.created "a.py"
          HandlerState.init).pending_events "a.py" = some ev) ∧
      ((fire_callback (handle_event (fun _ => true) 2 5 EventType.created "a.py"
          HandlerState.init)).1
        = (handle_event (fun _ => true) 2 5 EventType.created "a.py"
            HandlerState.init).pending_events.map (fun kv => kv.2)) ∧
      (fire_callback (handle_event (fun _ => true) 2 5 EventType.created "a.py"
          HandlerState.init)).2.pending_events = []) :=
  ⟨by decide,
   C4_per_path_buffer_single_shared_timer (fun _ => true) 2 5 EventType.created
     "a.py" HandlerState.init (by decide)⟩

/-- Folding accepted raw events for one path `p` over the handler: from a
state whose buffer holds at most `p`'s event, the buffer ends holding
exactly one event for `p` carrying the last raw event's kind and time,
and the timer deadline is the last event's time plus the debounce. -/
theorem foldl_handle_single_path (fs : String → Bool) (d : Nat) (p : String)
    (hp : should_ignore p = false) :
    ∀ (evs : List (Nat × EventType)) (hne : evs ≠ []) (s : HandlerState),
      (s.pending_events = [] ∨ ∃ e, s.pending_events = [(p, e)]) →
      ∃ ev : FileChangeEvent,
        (evs.foldl (fun st e => handle_event fs d e.1 e.2 p st) s).pending_events
          = [(p, ev)] ∧
        ev.file_path = p ∧ ev.event_type = (evs.getLast hne).2 ∧
        ev.timestamp = (evs.getLast hne).1 ∧
        (evs.foldl (fun st e => handle_event fs d e.1 e.2 p st) s).timer
          = some ((evs.getLast hne).1 + d) := by
  intro evs
  induction evs with
  | nil => intro hne; exact absurd rfl hne
  | cons e rest ih =>
    intro hne s hs
    rw [List.foldl_cons]
    have hstep : (handle_event fs d e.1 e.2 p s).pending_events
        = [(p, ⟨p, e.2, e.1,
            if e.2 ≠ EventType.deleted && fs p then
              some ("File " ++ eventTypeStr e.2 ++ ": " ++ pathName p)
            else none⟩)] ∧
        (handle_event fs d e.1 e.2 p s).timer = some (e.1 + d) := by
      rw [handle_event, if_neg (show ¬should_ignore p = true by simp [hp])]
      refine ⟨?_, rfl⟩
      rcases hs with hs | ⟨e0, hs⟩
      · rw [hs]
        rfl
      · rw [hs]
        simp [dictSet]
    by_cases hrest : rest = []
    · subst hrest
      simp only [List.foldl_nil]
      have hlast : ((e :: []).getLast hne) = e := rfl
      refine ⟨_, hstep.1, rfl, ?_, ?_, ?_⟩
      · rw [hlast]
      · rw [hlast]
      · rw [hlast]
        exact hstep.2
    · have hlast : ((e :: rest).getLast hne) = rest.getLast hrest :=
        List.getLast_cons hrest
      obtain ⟨ev, h1, h2, h3, h4, h5⟩ :=
        ih hrest (handle_event fs d e.1 e.2 p s) (Or.inr ⟨_, hstep.1⟩)
      refine ⟨ev, h1, h2, ?_, ?_, ?_⟩
      · rw [hlast]
        exact h3
      · rw [hlast]
        exact h4
      · rw [hlast]
        exact h5

/-- C5: for every sequence of accepted raw events on one path arriving
within the debounce interval of each other, firing after the quiet period
emits exactly one `ChangeEvent` for that path, carrying the kind (and
time) of the last raw event; the pending state is cleared afterwards. -/
theorem C5_debounce_coalesces_to_last_event :
    ∀ (fs : String → Bool) (d : Nat) (p : String)
      (evs : List (Nat × EventType)),
      should_ignore p = false →
      ∀ (hne : evs ≠ []),
      List.Chain' (fun a b => b.1 < a.1 + d) evs →
      ∃ ev : FileChangeEvent,
        (fire_callback (evs.foldl (fun st e => handle_event fs d e.1 e.2 p st)
          HandlerState.init)).1 = [ev] ∧
        ev.file_path = p ∧ ev.event_type = (evs.getLast hne).2 ∧
        ev.timestamp = (evs.getLast hne).1 ∧
        (evs.foldl (fun st e => handle_event fs d e.1 e.2 p st)
          HandlerState.init).timer = some ((evs.getLast hne).1 + d) ∧
        (fire_callback (evs.foldl (fun st e => handle_event fs d e.1 e.2 p st)
          HandlerState.init)).2.pending_events = [] := by
  intro fs d p evs hp hne _
  obtain ⟨ev, h1, h2, h3, h4, h5⟩ :=
    foldl_handle_single_path fs d p hp evs hne HandlerState.init (Or.inl rfl)
  refine ⟨ev, ?_, h2, h3, h4, h5, rfl⟩
  rw [fire_callback, h1]
  rfl

/-- Witness for C5: two rapid events (created at tick 0, modified at
tick 1, debounce 2) coalesce into one modified event at tick 1. -/
theorem C5_debounce_coalesces_to_last_event_witness :
    ∃ ev : FileChangeEvent,
      (fire_callback ([((0 : Nat), EventType.created),
          ((1 : Nat), EventType.modified)].foldl
        (fun st e => handle_event (fun _ => true) 2 e.1 e.2 "a.py" st)
        HandlerState.init)).1 = [ev] ∧
      ev.file_path = "a.py" ∧ ev.event_type = EventType.modified ∧
      ev.timestamp = 1 ∧
      ([((0 : Nat), EventType.created), ((1 : Nat), EventType.modified)].foldl
        (fun st e => handle_event (fun _ => true) 2 e.1 e.2 "a.py" st)
        HandlerState.init).timer = some 3 := by
  obtain ⟨ev, h1, h2, h3, h4, h5, h6⟩ :=
    C5_debounce_coalesces_to_last_event (fun _ => true) 2 "a.py"
      [((0 : Nat), EventType.created), ((1 : Nat), EventType.modified)]
      (by decide) (by decide) (by simp [List.chain'_cons])
  exact ⟨ev, h1, h2, h3, h4, h5⟩
